import Mathlib

/-!
Shallow embedding of the WorkTable storage engine (an embeddable in-process
table engine written in Rust) together with proofs about its page store,
lock primitive, table operations and index persistence.

Machine integers (u32 offsets, lengths, page ids) are modelled as Nat: the
source arithmetic never approaches the u32 range for the quantities involved.
Byte buffers are modelled as total functions from position to byte value;
the serialization codec (rkyv in the source) is an explicit parameter pair
of functions, following the specification which treats it as a pluggable
codec.
-/

namespace WorkTableSpec

/-- Total page size in bytes. The concrete value lives in the external
innodb crate; only its relation to the body size matters here. -/
def PAGE_SIZE : Nat := 16384

/-- Size of the data body of a page, from the external innodb crate
(DATA_PAGE_BODY_SIZE). The theorems below do not depend on the exact value. -/
def DATA_PAGE_BODY_SIZE : Nat := 16320

/-- Compile-time constant LINK_LENGTH from src/src/page/link.rs. -/
def LINK_LENGTH : Nat := 12

/-- PageLink from src/src/page/link.rs: a (page_id, offset, length) triple
addressing a serialized row inside a data page. All three fields are u32. -/
structure PageLink where
  page_id : Nat
  offset : Nat
  length : Nat
deriving DecidableEq

/-- Overwrite the byte range [off, off + bytes.length) of a body with the
given bytes, leaving every other position unchanged. This models
copy_from_slice into body[off..off+len]. -/
def writeBytes (body : Nat → Nat) (off : Nat) (bytes : List Nat) : Nat → Nat :=
  fun i => if off ≤ i ∧ i < off + bytes.length then bytes.getD (i - off) 0 else body i

/-- Read len bytes of a body starting at off, modelling the slice
body[off..off+len]. -/
def readBytes (body : Nat → Nat) (off len : Nat) : List Nat :=
  (List.range len).map (fun i => body (off + i))

/-- DataExecutionError from src/src/page/data.rs. -/
inductive DataExecutionError where
  | PageIsFull (need : Nat) (left : Int)
  | SerializeError
  | DeserializeError
  | InvalidLink
deriving DecidableEq

/-- DataPage from src/src/page/data.rs: header page_id, data-header append
cursor offset, and the page body. -/
structure DataPage where
  page_id : Nat
  offset : Nat
  body : Nat → Nat

/-- Fresh zero-initialized page with the given id (DataPage::new). -/
def DataPage.new (id : Nat) : DataPage :=
  { page_id := id, offset := 0, body := fun _ => 0 }

/-- Core of DataPage::save_row after serialization (src/src/page/data.rs
lines 42 to 62): bounds check against DATA_PAGE_BODY_SIZE, copy of the bytes
at the current cursor, cursor advance, and the returned link. -/
def DataPage.saveBytes (p : DataPage) (bytes : List Nat) :
    Except DataExecutionError (PageLink × DataPage) :=
  let length := bytes.length
  if p.offset + length > DATA_PAGE_BODY_SIZE then
    .error (.PageIsFull length ((PAGE_SIZE : Int) - (p.offset : Int)))
  else
    let offset0 := p.offset
    let link : PageLink := { page_id := p.page_id, offset := offset0, length := length }
    .ok (link, { p with offset := p.offset + length, body := writeBytes p.body offset0 bytes })

/-- DataPage::save_row (src/src/page/data.rs lines 37 to 63), with the rkyv
serializer as an explicit function argument. -/
def DataPage.save_row {α : Type} (ser : α → Option (List Nat)) (p : DataPage) (row : α) :
    Except DataExecutionError (PageLink × DataPage) :=
  match ser row with
  | none => .error .SerializeError
  | some bytes => p.saveBytes bytes

/-- DataPage::save_row_by_link (src/src/page/data.rs lines 69 to 88):
serialize, reject with InvalidLink when the new length differs from
link.length, else overwrite body[link.offset..link.offset+link.length]
in place and return the argument link. The cursor is not touched. -/
def DataPage.save_row_by_link {α : Type} (ser : α → Option (List Nat)) (p : DataPage)
    (row : α) (link : PageLink) : Except DataExecutionError (PageLink × DataPage) :=
  match ser row with
  | none => .error .SerializeError
  | some bytes =>
    if bytes.length ≠ link.length then
      .error .InvalidLink
    else
      .ok (link, { p with body := writeBytes p.body link.offset bytes })

/-- DataPage::get_row_ref (src/src/page/data.rs lines 110 to 124): the only
validation is link.offset against the append cursor; on success the bytes
body[link.offset..link.offset+link.length] are returned as the archived
view. -/
def DataPage.get_row_ref (p : DataPage) (link : PageLink) :
    Except DataExecutionError (List Nat) :=
  if link.offset > p.offset then
    .error .DeserializeError
  else
    .ok (readBytes p.body link.offset link.length)

/-- DataPage::get_mut_row_ref (src/src/page/data.rs lines 90 to 104): the
same cursor check as get_row_ref, yielding the same byte range as a pinned
mutable archived view. -/
def DataPage.get_mut_row_ref (p : DataPage) (link : PageLink) :
    Except DataExecutionError (List Nat) :=
  if link.offset > p.offset then
    .error .DeserializeError
  else
    .ok (readBytes p.body link.offset link.length)

/-- DataPage::get_row (src/src/page/data.rs lines 130 to 140): archived view
then deserialize, any codec failure mapped to DeserializeError. -/
def DataPage.get_row {α : Type} (deser : List Nat → Option α) (p : DataPage)
    (link : PageLink) : Except DataExecutionError α :=
  match p.get_row_ref link with
  | .error e => .error e
  | .ok bytes =>
    match deser bytes with
    | none => .error .DeserializeError
    | some row => .ok row

/-! ## Read-after-write lemmas for page bodies -/

theorem writeBytes_inside (body : Nat → Nat) (off : Nat) (bytes : List Nat)
    (i : Nat) (h : i < bytes.length) :
    writeBytes body off bytes (off + i) = bytes.getD i 0 := by
  unfold writeBytes
  have h1 : off ≤ off + i := Nat.le_add_right off i
  have h2 : off + i < off + bytes.length := by omega
  rw [if_pos ⟨h1, h2⟩]
  congr 1
  omega

theorem writeBytes_outside (body : Nat → Nat) (off : Nat) (bytes : List Nat)
    (i : Nat) (h : i < off ∨ off + bytes.length ≤ i) :
    writeBytes body off bytes i = body i := by
  unfold writeBytes
  rw [if_neg]
  omega

theorem readBytes_writeBytes (body : Nat → Nat) (off : Nat) (bytes : List Nat) :
    readBytes (writeBytes body off bytes) off bytes.length = bytes := by
  unfold readBytes
  apply List.ext_getElem
  · simp
  · intro i h1 h2
    simp only [List.getElem_map, List.getElem_range]
    have hi : i < bytes.length := by simpa using h2
    rw [writeBytes_inside body off bytes i hi]
    exact List.getD_eq_getElem bytes 0 hi

/-- Concrete serializer used by witnesses: a number becomes two bytes. -/
def serPair : Nat → Option (List Nat) := fun n => some [n % 256, n / 256 % 256]

/-- Concrete deserializer inverting serPair on numbers below 65536. -/
def deserPair : List Nat → Option Nat :=
  fun bytes =>
    match bytes with
    | [a, b] => some (a + 256 * b)
    | _ => none

/-- C4: for every DataPage and row whose serialization yields bytes B,
save_row fails with PageIsFull exactly when the current append cursor plus
the length of B exceeds DATA_PAGE_BODY_SIZE; otherwise it copies B into
body[offset..offset+|B|], returns the link (page_id, old offset, |B|) and
advances the cursor by exactly |B|. -/
theorem save_row_spec {α : Type} (ser : α → Option (List Nat)) (p : DataPage)
    (row : α) (bytes : List Nat) (hser : ser row = some bytes) :
    (p.save_row ser row =
        .error (.PageIsFull bytes.length ((PAGE_SIZE : Int) - (p.offset : Int))) ↔
      p.offset + bytes.length > DATA_PAGE_BODY_SIZE)
    ∧ (p.offset + bytes.length ≤ DATA_PAGE_BODY_SIZE →
        p.save_row ser row =
          .ok ({ page_id := p.page_id, offset := p.offset, length := bytes.length },
               { p with offset := p.offset + bytes.length,
                        body := writeBytes p.body p.offset bytes })) := by
  have hcore : p.save_row ser row = p.saveBytes bytes := by
    unfold DataPage.save_row
    rw [hser]
  rw [hcore]
  unfold DataPage.saveBytes
  by_cases hfull : p.offset + bytes.length > DATA_PAGE_BODY_SIZE
  · rw [if_pos hfull]
    exact ⟨⟨fun _ => hfull, fun _ => rfl⟩, fun hle => absurd hfull (by omega)⟩
  · rw [if_neg hfull]
    exact ⟨⟨fun hc => Except.noConfusion hc, fun hc => absurd hc hfull⟩, fun _ => rfl⟩

/-- Witness for save_row_spec: saving the row 7 on a fresh page succeeds and
yields link (0, 0, 2) with the cursor advanced to 2. -/
theorem save_row_spec_witness :
    (DataPage.new 0).offset + [7 % 256, 7 / 256 % 256].length ≤ DATA_PAGE_BODY_SIZE ∧
    (DataPage.new 0).save_row serPair 7 =
      .ok ({ page_id := (DataPage.new 0).page_id, offset := (DataPage.new 0).offset,
             length := [7 % 256, 7 / 256 % 256].length },
           { DataPage.new 0 with
               offset := (DataPage.new 0).offset + [7 % 256, 7 / 256 % 256].length,
               body := writeBytes (DataPage.new 0).body (DataPage.new 0).offset
                 [7 % 256, 7 / 256 % 256] }) :=
  ⟨by decide,
   (save_row_spec serPair (DataPage.new 0) 7 [7 % 256, 7 / 256 % 256] rfl).2 (by decide)⟩

/-- C5: save_row_by_link rejects with InvalidLink exactly when the newly
serialized length differs from link.length; on success the returned link is
the argument link, the append cursor is unchanged, and every body byte
outside [link.offset, link.offset + link.length) is unchanged. -/
theorem save_row_by_link_frame {α : Type} (ser : α → Option (List Nat)) (p : DataPage)
    (row : α) (link : PageLink) (bytes : List Nat) (hser : ser row = some bytes) :
    (p.save_row_by_link ser row link = .error .InvalidLink ↔ bytes.length ≠ link.length)
    ∧ (bytes.length = link.length →
        ∃ p2, p.save_row_by_link ser row link = .ok (link, p2) ∧
          p2.offset = p.offset ∧
          ∀ i, i < link.offset ∨ link.offset + link.length ≤ i →
            p2.body i = p.body i) := by
  have hcore : p.save_row_by_link ser row link =
      if bytes.length ≠ link.length then .error .InvalidLink
      else .ok (link, { p with body := writeBytes p.body link.offset bytes }) := by
    unfold DataPage.save_row_by_link
    rw [hser]
  rw [hcore]
  by_cases hlen : bytes.length = link.length
  · rw [if_neg (not_not_intro hlen)]
    refine ⟨⟨fun hc => Except.noConfusion hc, fun hc => absurd hlen hc⟩, fun _ => ?_⟩
    refine ⟨_, rfl, rfl, fun i hi => ?_⟩
    apply writeBytes_outside
    omega
  · rw [if_pos hlen]
    exact ⟨⟨fun _ => hlen, fun _ => rfl⟩, fun hc => absurd hc hlen⟩

/-- Witness for save_row_by_link_frame: overwriting the slot (1, 0, 2) of a
fresh page with the row 9 succeeds, keeps the cursor, and touches no byte
outside the slot. -/
theorem save_row_by_link_frame_witness :
    [9 % 256, 9 / 256 % 256].length = ({ page_id := 1, offset := 0, length := 2 } : PageLink).length ∧
    ∃ p2, (DataPage.new 1).save_row_by_link serPair 9
            { page_id := 1, offset := 0, length := 2 } =
          .ok ({ page_id := 1, offset := 0, length := 2 }, p2) ∧
        p2.offset = (DataPage.new 1).offset ∧
        ∀ i, i < ({ page_id := 1, offset := 0, length := 2 } : PageLink).offset ∨
            ({ page_id := 1, offset := 0, length := 2 } : PageLink).offset +
              ({ page_id := 1, offset := 0, length := 2 } : PageLink).length ≤ i →
          p2.body i = (DataPage.new 1).body i :=
  ⟨rfl,
   (save_row_by_link_frame serPair (DataPage.new 1) 9
     { page_id := 1, offset := 0, length := 2 } [9 % 256, 9 / 256 % 256] rfl).2 rfl⟩

/-- C9: get_row_ref and get_mut_row_ref return DeserializeError exactly when
link.offset exceeds the append cursor of the page, and with offset at or
below the cursor they accept the link and return the full byte range
[offset, offset + length) as sliced, with no check that offset + length
stays within the written region. -/
theorem get_row_ref_checks_only_offset (p : DataPage) (link : PageLink) :
    (p.get_row_ref link = .error .DeserializeError ↔ p.offset < link.offset)
    ∧ (p.get_mut_row_ref link = .error .DeserializeError ↔ p.offset < link.offset)
    ∧ (link.offset ≤ p.offset →
        p.get_row_ref link = .ok (readBytes p.body link.offset link.length)
        ∧ p.get_mut_row_ref link = .ok (readBytes p.body link.offset link.length)) := by
  unfold DataPage.get_row_ref DataPage.get_mut_row_ref
  by_cases h : link.offset > p.offset
  · rw [if_pos h]
    exact ⟨⟨fun _ => h, fun _ => rfl⟩, ⟨fun _ => h, fun _ => rfl⟩,
      fun hle => absurd h (by omega)⟩
  · rw [if_neg h]
    exact ⟨⟨fun hc => Except.noConfusion hc, fun hc => absurd hc h⟩,
      ⟨fun hc => Except.noConfusion hc, fun hc => absurd hc h⟩,
      fun _ => ⟨rfl, rfl⟩⟩

/-! ## PageLink wire format (C6) -/

/-- Little-endian byte encoding of a u32 value: four bytes. -/
def u32le (n : Nat) : List Nat :=
  [n % 256, n / 256 % 256, n / 65536 % 256, n / 16777216 % 256]

/-- Serialized (archived) form of a PageLink: page_id as u32, offset as u32,
length as u32 in order, per the on-disk layout section of the specification;
the rkyv codec producing it in the source is an external collaborator whose
archived u32 is four bytes. -/
def serializePageLink (link : PageLink) : List Nat :=
  u32le link.page_id ++ u32le link.offset ++ u32le link.length

/-- Size in bytes of the PageLink struct: three u32 fields, the quantity the
const_assert in src/src/page/link.rs compares against LINK_LENGTH. -/
def sizeOfPageLink : Nat := 4 + 4 + 4

/-- C6: every PageLink serializes to exactly 12 bytes, and the in-memory size
of PageLink equals the compile-time constant LINK_LENGTH = 12. -/
theorem pageLink_serialized_is_twelve_bytes (link : PageLink) :
    (serializePageLink link).length = 12 ∧
    LINK_LENGTH = 12 ∧
    sizeOfPageLink = LINK_LENGTH := by
  refine ⟨?_, rfl, rfl⟩
  simp [serializePageLink, u32le]

/-! ## Lock (C2) -/

/-- Poll outcome of a Rust Future. -/
inductive Poll where
  | Ready
  | Pending
deriving DecidableEq

/-- Lock from src/src/lock/mod.rs: the LockId (u16), the locked AtomicBool,
and the AtomicWaker slot, modelled as whether a waker is registered. -/
structure Lock where
  id : Nat
  locked : Bool
  waker : Bool
deriving DecidableEq

/-- Lock::new (src/src/lock/mod.rs lines 37 to 43): created with
locked = true and an empty waker slot. -/
def Lock.new (id : Nat) : Lock :=
  { id := id, locked := true, waker := false }

/-- Future::poll for Lock (src/src/lock/mod.rs lines 26 to 33): register the
context waker, then return Pending while the locked flag is still true and
Ready otherwise. The returned pair is (poll outcome, lock state after the
call). -/
def Lock.poll (l : Lock) : Poll × Lock :=
  let registered : Lock := { l with waker := true }
  if registered.locked then (Poll.Pending, registered) else (Poll.Ready, registered)

/-- Lock::unlock (src/src/lock/mod.rs lines 45 to 47): the whole body is
self.waker.wake(), which takes and wakes the registered waker. The locked
flag is not written. -/
def Lock.unlock (l : Lock) : Lock :=
  { l with waker := false }

/-- C2 fails on the code: unlock() never flips the locked flag, so a fresh
Lock that is unlocked still polls Pending, not Ready. This evaluates the
embedded Lock code at the concrete failing input Lock::new(0). -/
theorem unlock_leaves_poll_pending :
    (Lock.new 0).locked = true ∧
    ((Lock.new 0).unlock).locked = true ∧
    ((Lock.new 0).unlock).poll.1 = Poll.Pending ∧
    ((((Lock.new 0).unlock).poll.2).unlock).poll.1 = Poll.Pending :=
  ⟨rfl, rfl, rfl, rfl⟩

/-! ## DataPages and WorkTable

The DataPages collection lives in the crate::in_memory module of the
repository, which is not among the staged source files; its operations are
modelled from the specification (sections 3, 4.2, 4.5 and 4.7). The
WorkTable operations themselves (insert, select) are embedded from
src/src/table/mod.rs. -/

/-- In-place overwrite core shared by save_row_by_link and the free-slot
reuse path: reject unless the byte count equals link.length, else copy into
the existing slot. -/
def DataPage.saveBytesByLink (p : DataPage) (bytes : List Nat) (link : PageLink) :
    Except DataExecutionError (PageLink × DataPage) :=
  if bytes.length ≠ link.length then
    .error .InvalidLink
  else
    .ok (link, { p with body := writeBytes p.body link.offset bytes })

/-- PagesExecutionError of the DataPages collection (crate::in_memory, not
under the staged sources). Modelled from the spec: an aggregation wrapper for
page-level errors, plus the dispatch failure for an unknown page id. -/
inductive PagesExecutionError where
  | DataError (e : DataExecutionError)
  | PageNotFound
deriving DecidableEq

/-- Modelled from the spec: DataPages (crate::in_memory, not under the staged
sources) is the ordered list of pages plus a free list of reclaimable links;
the page at position i carries page id i, ids being assigned monotonically
within the table. -/
structure DataPages where
  pages : List DataPage
  freeList : List PageLink

/-- Modelled from the spec: DataPages::new starts with one empty page (spec
section 3: at least one page exists). -/
def DataPages.new : DataPages :=
  { pages := [DataPage.new 0], freeList := [] }

/-- Modelled from the spec: the append half of DataPages::insert tries the
tail page and, on PageIsFull, allocates a new page with the next page id and
retries (spec section 4.2). -/
def DataPages.appendToTail (d : DataPages) (bytes : List Nat) :
    Except PagesExecutionError (PageLink × DataPages) :=
  match d.pages.getLast? with
  | none => .error .PageNotFound
  | some p =>
    match p.saveBytes bytes with
    | .ok (link, p2) =>
      .ok (link, { d with pages := d.pages.set (d.pages.length - 1) p2 })
    | .error (.PageIsFull _ _) =>
      match (DataPage.new d.pages.length).saveBytes bytes with
      | .ok (link, p2) => .ok (link, { d with pages := d.pages ++ [p2] })
      | .error e => .error (.DataError e)
    | .error e => .error (.DataError e)

/-- Modelled from the spec: DataPages::insert. A freed slot at the head of
the free list is reused by an in-place overwrite when the serialized length
matches exactly; on a length mismatch the free-list entry is discarded (spec
section 4.7) and the row is appended to the tail page (spec sections 4.2 and
4.5). -/
def DataPages.insert {α : Type} (ser : α → Option (List Nat)) (d : DataPages) (row : α) :
    Except PagesExecutionError (PageLink × DataPages) :=
  match ser row with
  | none => .error (.DataError .SerializeError)
  | some bytes =>
    match d.freeList with
    | link :: rest =>
      if bytes.length = link.length then
        match d.pages[link.page_id]? with
        | none => .error .PageNotFound
        | some p =>
          match p.saveBytesByLink bytes link with
          | .ok (link2, p2) =>
            .ok (link2, { pages := d.pages.set link.page_id p2, freeList := rest })
          | .error e => .error (.DataError e)
      else
        DataPages.appendToTail { d with freeList := rest } bytes
    | [] => d.appendToTail bytes

/-- Modelled from the spec: DataPages::select dispatches to the page with the
matching page id and reads the row by link (spec sections 4.2 and 6.2). -/
def DataPages.select {α : Type} (deser : List Nat → Option α) (d : DataPages)
    (link : PageLink) : Except PagesExecutionError α :=
  match d.pages[link.page_id]? with
  | none => .error .PageNotFound
  | some p =>
    match p.get_row deser link with
    | .error e => .error (.DataError e)
    | .ok row => .ok row

/-- Modelled from the spec: DataPages::delete marks the row tombstone through
the archived view and pushes the link onto the free list (spec section 4.5).
The tombstone bit lives inside the serialized wrapper bytes and is not
tracked at the byte level here. -/
def DataPages.delete (d : DataPages) (link : PageLink) : DataPages :=
  { d with freeList := link :: d.freeList }

/-- Association-list lookup modelling TreeIndex::peek of the pk map. -/
def assocLookup {κ : Type} [DecidableEq κ] : List (κ × PageLink) → κ → Option PageLink
  | [], _ => none
  | (k, v) :: rest, key => if key = k then some v else assocLookup rest key

/-- TreeIndex::insert of the pk map: returns none (the AlreadyExists case)
when the key is present, else the map extended with the new entry. -/
def pkMapInsert {κ : Type} [DecidableEq κ] (m : List (κ × PageLink)) (k : κ)
    (v : PageLink) : Option (List (κ × PageLink)) :=
  match assocLookup m k with
  | some _ => none
  | none => some ((k, v) :: m)

/-- WorkTableError from src/src/table/mod.rs lines 111 to 117. -/
inductive WorkTableError where
  | NotFound
  | AlreadyExists
  | SerializeError
  | PagesError (e : PagesExecutionError)
deriving DecidableEq

/-- WorkTable from src/src/table/mod.rs lines 18 to 33: the data pages, the
pk map and the secondary-index component (generic, as in the Rust type). The
pk generator and the lock map play no part in the claims settled here. -/
structure WorkTable (κ ι : Type) where
  data : DataPages
  pk_map : List (κ × PageLink)
  indexes : ι

/-- TableIndex::save_row of the unit index, from the impl for () in
src/src/index.rs: always succeeds and changes nothing. -/
def unitIdxSave {α : Type} : Unit → α → PageLink → Except WorkTableError Unit :=
  fun _ _ _ => .ok ()

/-- WorkTable::insert (src/src/table/mod.rs lines 90 to 108): write the row
to the data pages, insert the link under the primary key into pk_map
(failing with AlreadyExists on a duplicate), then update the secondary
indexes through TableIndex::save_row. The Rust method mutates the shared
table in place, so the pair returned here is (result, table state after the
call): a failure at a later step leaves every earlier step applied — the
method body contains no rollback. -/
def WorkTable.insert {α κ ι : Type} [DecidableEq κ]
    (ser : α → Option (List Nat)) (getPk : α → κ)
    (idxSave : ι → α → PageLink → Except WorkTableError ι)
    (t : WorkTable κ ι) (row : α) :
    Except WorkTableError κ × WorkTable κ ι :=
  let pk := getPk row
  match t.data.insert ser row with
  | .error e => (.error (.PagesError e), t)
  | .ok (link, data2) =>
    let t1 : WorkTable κ ι := { t with data := data2 }
    match pkMapInsert t1.pk_map pk link with
    | none => (.error .AlreadyExists, t1)
    | some m2 =>
      let t2 : WorkTable κ ι := { t1 with pk_map := m2 }
      match idxSave t2.indexes row link with
      | .error e => (.error e, t2)
      | .ok idx2 => (.ok pk, { t2 with indexes := idx2 })

/-- WorkTable::select (src/src/table/mod.rs lines 73 to 84): peek the link
under the primary key, then read from the data pages, discarding any page or
codec error with .ok(). -/
def WorkTable.select {α κ ι : Type} [DecidableEq κ] (deser : List Nat → Option α)
    (t : WorkTable κ ι) (pk : κ) : Option α :=
  match assocLookup t.pk_map pk with
  | none => none
  | some link => (t.data.select deser link).toOption

/-! ## Missing rollback in insert (C1) -/

/-- Table state after inserting the row 5 (primary key 5) into a fresh
table with the unit secondary-index component. -/
def rollbackDemoT1 : WorkTable Nat Unit :=
  (WorkTable.insert serPair (fun n => n) unitIdxSave
    { data := DataPages.new, pk_map := [], indexes := () } 5).2

/-- Result and state of inserting the row 5 a second time: the primary key
collides in pk_map. -/
def rollbackDemoStep2 : Except WorkTableError Nat × WorkTable Nat Unit :=
  WorkTable.insert serPair (fun n => n) unitIdxSave rollbackDemoT1 5

/-- Append cursor of the first data page of a table state. -/
def firstPageOffset {κ ι : Type} (t : WorkTable κ ι) : Option Nat :=
  (t.data.pages[0]?).map fun p => p.offset

/-- C1 fails on the code: the duplicate insert returns AlreadyExists, yet the
data-page row write of the failing insert is not undone — the append cursor
of the page moved from 2 to 4, so the table state differs from its state
after the first insert alone. WorkTable::insert contains no rollback code. -/
theorem insert_no_rollback_on_duplicate_pk :
    rollbackDemoStep2.1 = .error .AlreadyExists ∧
    firstPageOffset rollbackDemoT1 = some 2 ∧
    firstPageOffset rollbackDemoStep2.2 = some 4 :=
  ⟨rfl, rfl, rfl⟩

/-! ## select discards storage errors (C10) -/

/-- C10: WorkTable::select never surfaces an error. It returns none when the
key is absent from pk_map and also when the key maps to a link whose
data-page read fails, the error being discarded by .ok(), so a storage
failure is indistinguishable from a missing key. -/
theorem select_discards_storage_errors {α κ ι : Type} [DecidableEq κ]
    (deser : List Nat → Option α) (t : WorkTable κ ι) (pk : κ) :
    (assocLookup t.pk_map pk = none → t.select deser pk = none)
    ∧ (∀ link e, assocLookup t.pk_map pk = some link →
        t.data.select deser link = .error e → t.select deser pk = none) := by
  constructor
  · intro h
    unfold WorkTable.select
    rw [h]
  · intro link e h1 h2
    unfold WorkTable.select
    rw [h1]
    show (DataPages.select deser t.data link).toOption = none
    rw [h2]
    rfl

/-- Table with key 3 bound to a link whose offset lies beyond the append
cursor of page 0, so the page read fails with DeserializeError. -/
def selectDemoTable : WorkTable Nat Unit :=
  { data := DataPages.new,
    pk_map := [(3, { page_id := 0, offset := 5, length := 2 })],
    indexes := () }

/-- Witness for select_discards_storage_errors: the failed storage read under
key 3 and the missing key 4 both come back as none. -/
theorem select_discards_storage_errors_witness :
    WorkTable.select deserPair selectDemoTable 3 = none ∧
    WorkTable.select deserPair selectDemoTable 4 = none :=
  ⟨(select_discards_storage_errors deserPair selectDemoTable 3).2
      { page_id := 0, offset := 5, length := 2 }
      (.DataError .DeserializeError) rfl rfl,
   (select_discards_storage_errors deserPair selectDemoTable 4).1 rfl⟩

/-! ## Insert-select round trip (C3) -/

theorem saveBytes_ok {p : DataPage} {bytes : List Nat} {link : PageLink} {p2 : DataPage}
    (h : p.saveBytes bytes = .ok (link, p2)) :
    link = { page_id := p.page_id, offset := p.offset, length := bytes.length } ∧
    p2 = { p with offset := p.offset + bytes.length,
                  body := writeBytes p.body p.offset bytes } := by
  unfold DataPage.saveBytes at h
  by_cases hfull : p.offset + bytes.length > DATA_PAGE_BODY_SIZE
  · rw [if_pos hfull] at h
    exact Except.noConfusion h
  · rw [if_neg hfull] at h
    simp only [Except.ok.injEq, Prod.mk.injEq] at h
    exact ⟨h.1.symm, h.2.symm⟩

theorem saveBytesByLink_ok {p : DataPage} {bytes : List Nat} {link link2 : PageLink}
    {p2 : DataPage} (h : p.saveBytesByLink bytes link = .ok (link2, p2)) :
    link2 = link ∧ bytes.length = link.length ∧
    p2 = { p with body := writeBytes p.body link.offset bytes } := by
  unfold DataPage.saveBytesByLink at h
  by_cases hlen : bytes.length = link.length
  · rw [if_neg (not_not_intro hlen)] at h
    simp only [Except.ok.injEq, Prod.mk.injEq] at h
    exact ⟨h.1.symm, hlen, h.2.symm⟩
  · rw [if_pos hlen] at h
    exact Except.noConfusion h

theorem get_row_ref_ok (p : DataPage) (link : PageLink) (hoff : ¬ link.offset > p.offset) :
    p.get_row_ref link = .ok (readBytes p.body link.offset link.length) := by
  unfold DataPage.get_row_ref
  rw [if_neg hoff]

theorem get_row_ok {α : Type} (deser : List Nat → Option α) (p : DataPage)
    (link : PageLink) (row : α) (hoff : link.offset ≤ p.offset)
    (hdeser : deser (readBytes p.body link.offset link.length) = some row) :
    p.get_row deser link = .ok row := by
  unfold DataPage.get_row
  rw [get_row_ref_ok p link (by omega)]
  show (match deser (readBytes p.body link.offset link.length) with
        | none => (.error .DeserializeError : Except DataExecutionError α)
        | some r => .ok r) = .ok row
  rw [hdeser]

theorem select_of_page {α : Type} (deser : List Nat → Option α) (d : DataPages)
    (link : PageLink) (p : DataPage) (row : α)
    (hp : d.pages[link.page_id]? = some p)
    (hrow : p.get_row deser link = .ok row) :
    d.select deser link = .ok row := by
  unfold DataPages.select
  rw [hp]
  show (match p.get_row deser link with
        | .error e => (.error (.DataError e) : Except PagesExecutionError α)
        | .ok r => .ok r) = .ok row
  rw [hrow]

theorem appendToTail_select {α : Type} (deser : List Nat → Option α)
    (d : DataPages) (bytes : List Nat) (row : α) (link : PageLink) (d2 : DataPages)
    (hids : ∀ i, (h : i < d.pages.length) → d.pages[i].page_id = i)
    (hdeser : deser bytes = some row)
    (happ : d.appendToTail bytes = .ok (link, d2)) :
    d2.select deser link = .ok row := by
  unfold DataPages.appendToTail at happ
  rcases hlast : d.pages.getLast? with _ | p
  · simp only [hlast] at happ
    exact Except.noConfusion happ
  have hgetp : d.pages[d.pages.length - 1]? = some p := by
    rw [← List.getLast?_eq_getElem?]
    exact hlast
  obtain ⟨hlen0, hpe⟩ := List.getElem?_eq_some_iff.mp hgetp
  have hpid : p.page_id = d.pages.length - 1 := by
    have hi := hids (d.pages.length - 1) hlen0
    rw [hpe] at hi
    exact hi
  simp only [hlast] at happ
  rcases hsave : p.saveBytes bytes with e | ⟨l0, p2⟩
  · rcases e with ⟨need, left⟩ | _ | _ | _
    · simp only [hsave] at happ
      rcases hsave2 : (DataPage.new d.pages.length).saveBytes bytes with e2 | ⟨l2, q2⟩
      · simp only [hsave2] at happ
        exact Except.noConfusion happ
      · simp only [hsave2, Except.ok.injEq, Prod.mk.injEq] at happ
        rcases saveBytes_ok hsave2 with ⟨hl2, hq2⟩
        rcases happ with ⟨hlink, hd2⟩
        apply select_of_page deser d2 link q2 row
        · rw [← hd2]
          show (d.pages ++ [q2])[link.page_id]? = some q2
          have hlpid : link.page_id = d.pages.length := by
            rw [← hlink, hl2]
            rfl
          rw [hlpid, List.getElem?_append_right (Nat.le_refl _)]
          simp
        · apply get_row_ok deser q2 link row
          · rw [← hlink, hl2, hq2]
            exact Nat.zero_le _
          · rw [← hlink, hl2, hq2]
            show deser (readBytes
              (writeBytes (DataPage.new d.pages.length).body
                (DataPage.new d.pages.length).offset bytes)
              (DataPage.new d.pages.length).offset bytes.length) = some row
            rw [readBytes_writeBytes]
            exact hdeser
    · simp only [hsave] at happ
      exact Except.noConfusion happ
    · simp only [hsave] at happ
      exact Except.noConfusion happ
    · simp only [hsave] at happ
      exact Except.noConfusion happ
  · simp only [hsave, Except.ok.injEq, Prod.mk.injEq] at happ
    rcases saveBytes_ok hsave with ⟨hl0, hp2⟩
    rcases happ with ⟨hlink, hd2⟩
    apply select_of_page deser d2 link p2 row
    · rw [← hd2]
      show (d.pages.set (d.pages.length - 1) p2)[link.page_id]? = some p2
      have hlpid : link.page_id = d.pages.length - 1 := by
        rw [← hlink, hl0]
        exact hpid
      rw [hlpid]
      exact List.getElem?_set_self hlen0
    · apply get_row_ok deser p2 link row
      · rw [← hlink, hl0, hp2]
        exact Nat.le_add_right _ _
      · rw [← hlink, hl0, hp2]
        show deser (readBytes (writeBytes p.body p.offset bytes)
          p.offset bytes.length) = some row
        rw [readBytes_writeBytes]
        exact hdeser

theorem dataInsert_select {α : Type} (ser : α → Option (List Nat))
    (deser : List Nat → Option α) (d : DataPages) (row : α) (link : PageLink)
    (d2 : DataPages)
    (hids : ∀ i, (h : i < d.pages.length) → d.pages[i].page_id = i)
    (hfree : ∀ l ∈ d.freeList, ∃ p, d.pages[l.page_id]? = some p ∧
        l.offset + l.length ≤ p.offset)
    (hcodec : (ser row).bind deser = some row)
    (hins : d.insert ser row = .ok (link, d2)) :
    d2.select deser link = .ok row := by
  unfold DataPages.insert at hins
  rcases hser : ser row with _ | bytes
  · simp only [hser] at hins
    exact Except.noConfusion hins
  have hdeser : deser bytes = some row := by
    rw [hser] at hcodec
    simpa using hcodec
  simp only [hser] at hins
  rcases hflist : d.freeList with _ | ⟨l1, rest⟩
  · simp only [hflist] at hins
    exact appendToTail_select deser d bytes row link d2 hids hdeser hins
  simp only [hflist] at hins
  by_cases hlen : bytes.length = l1.length
  · rw [if_pos hlen] at hins
    obtain ⟨p, hp, hbound⟩ := hfree l1 (by rw [hflist]; exact List.mem_cons_self l1 rest)
    simp only [hp] at hins
    rcases hsbl : p.saveBytesByLink bytes l1 with e | ⟨l2, p2⟩
    · simp only [hsbl] at hins
      exact Except.noConfusion hins
    · simp only [hsbl, Except.ok.injEq, Prod.mk.injEq] at hins
      rcases saveBytesByLink_ok hsbl with ⟨hl2, hlen2, hp2⟩
      rcases hins with ⟨hlink, hd2⟩
      obtain ⟨h1, hpe⟩ := List.getElem?_eq_some_iff.mp hp
      apply select_of_page deser d2 link p2 row
      · rw [← hd2]
        show (d.pages.set l1.page_id p2)[link.page_id]? = some p2
        have hpg : link.page_id = l1.page_id := by
          rw [← hlink, hl2]
        rw [hpg]
        exact List.getElem?_set_self h1
      · apply get_row_ok deser p2 link row
        · rw [← hlink, hl2, hp2]
          show l1.offset ≤ p.offset
          omega
        · rw [← hlink, hl2, hp2]
          show deser (readBytes (writeBytes p.body l1.offset bytes)
            l1.offset l1.length) = some row
          rw [← hlen2, readBytes_writeBytes]
          exact hdeser
  · rw [if_neg hlen] at hins
    exact appendToTail_select deser { d with freeList := rest } bytes row link d2
      hids hdeser hins

/-- C3: for every row insertable into a table (the insert call returns ok
with a primary key), selecting by that key on the resulting table state
yields a row value equal to the inserted row, provided the codec
deserializes what it serialized. The free-list and page-id hypotheses are
the structural invariants of the page collection stated in the data-model
section of the specification. -/
theorem insert_select_roundtrip {α κ ι : Type} [DecidableEq κ]
    (ser : α → Option (List Nat)) (deser : List Nat → Option α) (getPk : α → κ)
    (idxSave : ι → α → PageLink → Except WorkTableError ι)
    (t : WorkTable κ ι) (row : α) (pk : κ)
    (hids : ∀ i, (h : i < t.data.pages.length) → t.data.pages[i].page_id = i)
    (hfree : ∀ l ∈ t.data.freeList, ∃ p, t.data.pages[l.page_id]? = some p ∧
        l.offset + l.length ≤ p.offset)
    (hcodec : (ser row).bind deser = some row)
    (hok : (WorkTable.insert ser getPk idxSave t row).1 = .ok pk) :
    WorkTable.select deser (WorkTable.insert ser getPk idxSave t row).2 pk
      = some row := by
  unfold WorkTable.insert at hok ⊢
  rcases hdi : t.data.insert ser row with e | ⟨link, data2⟩
  · simp [hdi] at hok
  rcases hpkins : pkMapInsert t.pk_map (getPk row) link with _ | m2
  · simp [hdi, hpkins] at hok
  rcases hidx : idxSave t.indexes row link with e | idx2
  · simp [hdi, hpkins, hidx] at hok
  simp only [hdi, hpkins, hidx, Except.ok.injEq] at hok ⊢
  have hm2 : m2 = (getPk row, link) :: t.pk_map := by
    unfold pkMapInsert at hpkins
    rcases hal : assocLookup t.pk_map (getPk row) with _ | v
    · simp only [hal, Option.some.injEq] at hpkins
      exact hpkins.symm
    · simp only [hal] at hpkins
      exact Option.noConfusion hpkins
  rw [← hok]
  unfold WorkTable.select
  show (match assocLookup m2 (getPk row) with
        | none => none
        | some l => (DataPages.select deser data2 l).toOption) = some row
  rw [hm2]
  show (match (if getPk row = getPk row then some link
               else assocLookup t.pk_map (getPk row)) with
        | none => none
        | some l => (DataPages.select deser data2 l).toOption) = some row
  rw [if_pos rfl]
  show (DataPages.select deser data2 link).toOption = some row
  rw [dataInsert_select ser deser t.data row link data2 hids hfree hcodec hdi]
  rfl

/-- Witness for insert_select_roundtrip: inserting the row 5 into a fresh
table and selecting primary key 5 returns the row 5. -/
theorem insert_select_roundtrip_witness :
    WorkTable.select deserPair
      (WorkTable.insert serPair (fun n => n) unitIdxSave
        { data := DataPages.new, pk_map := [], indexes := () } 5).2 5 = some 5 :=
  insert_select_roundtrip serPair deserPair (fun n => n) unitIdxSave
    { data := DataPages.new, pk_map := [], indexes := () } 5 5
    (by decide) (by simp [DataPages.new]) rfl rfl

/-! ## Freed-slot reuse after delete (C7) -/

theorem appendToTail_link_length {d : DataPages} {bytes : List Nat} {link : PageLink}
    {d2 : DataPages} (happ : d.appendToTail bytes = .ok (link, d2)) :
    link.length = bytes.length := by
  unfold DataPages.appendToTail at happ
  rcases hlast : d.pages.getLast? with _ | p
  · simp only [hlast] at happ
    exact Except.noConfusion happ
  simp only [hlast] at happ
  rcases hsave : p.saveBytes bytes with e | ⟨l0, p2⟩
  · rcases e with ⟨need, left⟩ | _ | _ | _
    · simp only [hsave] at happ
      rcases hsave2 : (DataPage.new d.pages.length).saveBytes bytes with e2 | ⟨l2, q2⟩
      · simp only [hsave2] at happ
        exact Except.noConfusion happ
      · simp only [hsave2, Except.ok.injEq, Prod.mk.injEq] at happ
        rcases saveBytes_ok hsave2 with ⟨hl2, _⟩
        rw [← happ.1, hl2]
    · simp only [hsave] at happ
      exact Except.noConfusion happ
    · simp only [hsave] at happ
      exact Except.noConfusion happ
    · simp only [hsave] at happ
      exact Except.noConfusion happ
  · simp only [hsave, Except.ok.injEq, Prod.mk.injEq] at happ
    rcases saveBytes_ok hsave with ⟨hl0, _⟩
    rw [← happ.1, hl0]

/-- C7: with the freed link at the head of the free list, a subsequent
insert whose serialized length equals the freed slot length is assigned
exactly that link and records it in pk_map under the new key, while a
successful insert of a row with a different serialized length is assigned a
link different from the freed one. Stated over a table with the unit
secondary-index component, matching the TableIndex impl for () in
src/src/index.rs. -/
theorem freed_slot_reuse {α κ : Type} [DecidableEq κ]
    (ser : α → Option (List Nat)) (getPk : α → κ)
    (t : WorkTable κ Unit) (r2 : α) (L1 : PageLink) (rest : List PageLink)
    (bytes : List Nat)
    (hfree : t.data.freeList = L1 :: rest)
    (hser : ser r2 = some bytes) :
    (bytes.length = L1.length →
      (∃ p, t.data.pages[L1.page_id]? = some p) →
      assocLookup t.pk_map (getPk r2) = none →
      (WorkTable.insert ser getPk unitIdxSave t r2).1 = .ok (getPk r2) ∧
      assocLookup (WorkTable.insert ser getPk unitIdxSave t r2).2.pk_map (getPk r2)
        = some L1)
    ∧ (bytes.length ≠ L1.length →
      ∀ pk, (WorkTable.insert ser getPk unitIdxSave t r2).1 = .ok pk →
      ∃ l2, assocLookup (WorkTable.insert ser getPk unitIdxSave t r2).2.pk_map pk
          = some l2 ∧ l2.length = bytes.length ∧ l2 ≠ L1) := by
  constructor
  · rintro hlen ⟨p, hp⟩ hpk
    have hsbl : p.saveBytesByLink bytes L1 =
        .ok (L1, { p with body := writeBytes p.body L1.offset bytes }) := by
      unfold DataPage.saveBytesByLink
      rw [if_neg (not_not_intro hlen)]
    have hdi : t.data.insert ser r2 = .ok (L1, { pages := t.data.pages.set L1.page_id { p with body := writeBytes p.body L1.offset bytes }, freeList := rest }) := by
      unfold DataPages.insert
      simp only [hser, hfree, if_pos hlen, hp, hsbl]
    unfold WorkTable.insert
    simp only [hdi]
    unfold pkMapInsert
    simp only [hpk]
    unfold unitIdxSave
    refine ⟨rfl, ?_⟩
    show assocLookup ((getPk r2, L1) :: t.pk_map) (getPk r2) = some L1
    unfold assocLookup
    rw [if_pos rfl]
  · intro hlen pk hok
    unfold WorkTable.insert at hok ⊢
    rcases hdi : t.data.insert ser r2 with e | ⟨link, data2⟩
    · simp [hdi] at hok
    have hlink_len : link.length = bytes.length := by
      unfold DataPages.insert at hdi
      simp only [hser, hfree] at hdi
      rw [if_neg hlen] at hdi
      exact appendToTail_link_length hdi
    rcases hpkins : pkMapInsert t.pk_map (getPk r2) link with _ | m2
    · simp [hdi, hpkins] at hok
    simp only [hdi, hpkins, unitIdxSave, Except.ok.injEq] at hok ⊢
    have hm2 : m2 = (getPk r2, link) :: t.pk_map := by
      unfold pkMapInsert at hpkins
      rcases hal : assocLookup t.pk_map (getPk r2) with _ | v
      · simp only [hal, Option.some.injEq] at hpkins
        exact hpkins.symm
      · simp only [hal] at hpkins
        exact Option.noConfusion hpkins
    refine ⟨link, ?_, hlink_len, ?_⟩
    · rw [hm2, ← hok]
      show assocLookup ((getPk r2, link) :: t.pk_map) (getPk r2) = some link
      unfold assocLookup
      rw [if_pos rfl]
    · intro heq
      rw [heq] at hlink_len
      exact hlen hlink_len.symm

/-- Table whose single page has its cursor at 4 and whose free list holds
the freed link (0, 0, 2), as after deleting a two-byte row. -/
def reuseDemoTable : WorkTable Nat Unit :=
  { data := { pages := [{ page_id := 0, offset := 4, body := fun _ => 0 }],
              freeList := [{ page_id := 0, offset := 0, length := 2 }] },
    pk_map := [], indexes := () }

/-- Witness for freed_slot_reuse: inserting the two-byte row 7 into
reuseDemoTable is assigned exactly the freed link (0, 0, 2). -/
theorem freed_slot_reuse_witness :
    (WorkTable.insert serPair (fun n => n) unitIdxSave reuseDemoTable 7).1 = .ok 7 ∧
    assocLookup
      (WorkTable.insert serPair (fun n => n) unitIdxSave reuseDemoTable 7).2.pk_map 7
      = some { page_id := 0, offset := 0, length := 2 } :=
  (freed_slot_reuse serPair (fun n => n) reuseDemoTable 7
      { page_id := 0, offset := 0, length := 2 } [] [7 % 256, 7 / 256 % 256]
      rfl rfl).1
    rfl ⟨{ page_id := 0, offset := 4, body := fun _ => 0 }, rfl⟩ rfl

/-! ## Index persistence intervals (C8) -/

/-- GeneralHeader of a persisted page: the page id and the chain ids. The
full header in the repository also carries space and page-kind fields that
play no part in interval accounting. -/
structure GeneralHeader where
  page_id : Nat
  previous_id : Nat
  next_id : Nat
deriving DecidableEq

/-- GeneralPage as stored in a persisted index: its header carries the page
id used by persist_page and get_intervals. -/
structure GeneralPage where
  header : GeneralHeader
deriving DecidableEq

/-- Interval of the persistence layer: an inclusive page-id range, a tuple
struct whose two components are the first and the last page id. -/
structure Interval where
  start_id : Nat
  end_id : Nat
deriving DecidableEq

/-- PersistedIndex state: one named vector of general pages per declared
index field, in declaration order, as generated by gen_persist_type. -/
abbrev PersistedIndex := List (String × List GeneralPage)

/-- get_intervals as generated by Generator::gen_get_intervals_fn
(src/codegen/src/persist_index/generator.rs lines 185 to 230): one Interval
per index field, from the page id of the first page to the page id of the
last page. The generated code unwraps the page vectors with expect, relying
on their nonemptiness; the model reads the default id 0 for an empty vector
and every theorem below assumes nonemptiness. -/
def get_intervals (idx : PersistedIndex) : List (String × List Interval) :=
  idx.map fun f =>
    (f.1,
     [{ start_id := (f.2.head?.map fun p => p.header.page_id).getD 0,
        end_id := (f.2.getLast?.map fun p => p.header.page_id).getD 0 }])

/-- Page ids written by the generated persist function
(Generator::gen_persist_fn, src/codegen/src/persist_index/generator.rs lines
156 to 181): persist_page runs on every page of every index field in
declaration order. -/
def persistedPageIds (idx : PersistedIndex) : List Nat :=
  idx.flatMap fun f => f.2.map fun p => p.header.page_id

/-- C8: for a persisted index whose field page vectors are nonempty and
carry consecutive ascending page ids (as the chained header allocation of
get_persisted_index produces), the intervals reported by get_intervals
cover exactly and only the page ids of the pages written by persist. -/
theorem intervals_cover_persisted_pages (idx : PersistedIndex) (id : Nat)
    (hne : ∀ f ∈ idx, f.2 ≠ [])
    (hconsec : ∀ f ∈ idx, ∀ j, (h : j < f.2.length) →
      (f.2[j]).header.page_id
        = (f.2.head?.map fun p => p.header.page_id).getD 0 + j) :
    (∃ e ∈ get_intervals idx, ∃ iv ∈ e.2, iv.start_id ≤ id ∧ id ≤ iv.end_id)
      ↔ id ∈ persistedPageIds idx := by
  unfold get_intervals persistedPageIds
  constructor
  · rintro ⟨e, he, iv, hiv, hlo, hhi⟩
    rw [List.mem_map] at he
    obtain ⟨f, hf, hef⟩ := he
    have hlen : 0 < f.2.length := List.length_pos.mpr (hne f hf)
    rw [← hef] at hiv
    simp only [List.mem_singleton] at hiv
    subst hiv
    simp only at hlo hhi
    have hbase : (f.2.head?.map fun p => p.header.page_id).getD 0
        = (f.2[0]).header.page_id := by
      rw [List.head?_eq_getElem?, List.getElem?_eq_getElem hlen]
      rfl
    have hlastv : (f.2.getLast?.map fun p => p.header.page_id).getD 0
        = (f.2[f.2.length - 1]).header.page_id := by
      rw [List.getLast?_eq_getElem?, List.getElem?_eq_getElem (by omega)]
      rfl
    have hlast_id : (f.2[f.2.length - 1]).header.page_id
        = (f.2.head?.map fun p => p.header.page_id).getD 0 + (f.2.length - 1) :=
      hconsec f hf (f.2.length - 1) (by omega)
    rw [hlastv, hlast_id] at hhi
    set base := (f.2.head?.map fun p => p.header.page_id).getD 0 with hbdef
    have hj : id - base < f.2.length := by omega
    have hid : (f.2[id - base]).header.page_id = id := by
      rw [hconsec f hf (id - base) hj]
      omega
    rw [List.mem_flatMap]
    refine ⟨f, hf, ?_⟩
    rw [List.mem_map]
    exact ⟨f.2[id - base], List.getElem_mem hj, hid⟩
  · intro hmem
    rw [List.mem_flatMap] at hmem
    obtain ⟨f, hf, hmem2⟩ := hmem
    rw [List.mem_map] at hmem2
    obtain ⟨p, hp, hpid⟩ := hmem2
    have hlen : 0 < f.2.length := List.length_pos.mpr (hne f hf)
    obtain ⟨j, hj, hpj⟩ := List.mem_iff_getElem.mp hp
    have hbase : (f.2.head?.map fun q => q.header.page_id).getD 0
        = (f.2[0]).header.page_id := by
      rw [List.head?_eq_getElem?, List.getElem?_eq_getElem hlen]
      rfl
    have hlastv : (f.2.getLast?.map fun q => q.header.page_id).getD 0
        = (f.2[f.2.length - 1]).header.page_id := by
      rw [List.getLast?_eq_getElem?, List.getElem?_eq_getElem (by omega)]
      rfl
    have hid : id = (f.2.head?.map fun q => q.header.page_id).getD 0 + j := by
      rw [← hpid, ← hpj]
      exact hconsec f hf j hj
    have hlast_id : (f.2[f.2.length - 1]).header.page_id
        = (f.2.head?.map fun q => q.header.page_id).getD 0 + (f.2.length - 1) :=
      hconsec f hf (f.2.length - 1) (by omega)
    refine ⟨(f.1,
      [{ start_id := (f.2.head?.map fun q => q.header.page_id).getD 0,
         end_id := (f.2.getLast?.map fun q => q.header.page_id).getD 0 }]), ?_, ?_⟩
    · rw [List.mem_map]
      exact ⟨f, hf, rfl⟩
    · refine ⟨_, List.mem_singleton.mpr rfl, ?_, ?_⟩
      · simp only
        omega
      · simp only
        rw [hlastv, hlast_id]
        omega

/-- Persisted index with two fields: pages 1 and 2 under the first index
name and page 3 under the second. -/
def intervalsDemo : PersistedIndex :=
  [("a", [{ header := { page_id := 1, previous_id := 0, next_id := 2 } },
          { header := { page_id := 2, previous_id := 1, next_id := 3 } }]),
   ("b", [{ header := { page_id := 3, previous_id := 2, next_id := 0 } }])]

/-- Witness for intervals_cover_persisted_pages at page id 2 of the demo
index. -/
theorem intervals_cover_persisted_pages_witness :
    (∃ e ∈ get_intervals intervalsDemo, ∃ iv ∈ e.2,
        iv.start_id ≤ 2 ∧ 2 ≤ iv.end_id)
      ↔ 2 ∈ persistedPageIds intervalsDemo :=
  intervals_cover_persisted_pages intervalsDemo 2 (by decide) (by decide)

end WorkTableSpec
